import Mathlib

/-!
Formalisation of the floating-point value-representation layer of the
Mercury runtime (`runtime/mercury_float.h`).

Floating-point values are modelled by their IEEE-754 bit patterns, as
natural numbers below `2 ^ (8 * sizeof(MR_Float))`: every operation in
the header moves, stores or inspects bits and never performs
floating-point arithmetic, so the bit-pattern view is exact.

Memory is modelled at byte-address granularity: the bump cursor `MR_hp`
is a byte address, and the heap content is a map from the byte address
of a stored float to the float bits stored there (the only memory
accesses in this header read or write one whole `MR_Float`).  The
external allocator `MR_hp_alloc_atomic_msg(n, site, msg)` is modelled as
advancing the cursor by `n` words and recording the request in an
allocation log, which is exactly the bump-allocator contract the header
relies on.
-/

namespace MercuryFloat

/-- Build-time configuration flags of the runtime, from `mercury_conf.h`
and the compiler detection macros.  `wordBytes` is `sizeof(MR_Word)`. -/
structure Config where
  useSinglePrecFloat : Bool
  boxedFloatConfigured : Bool
  conservativeGC : Bool
  gnuc : Bool
  wordBytes : Nat
deriving DecidableEq

/-- MR_Float is `float` (4 bytes) under MR_USE_SINGLE_PREC_FLOAT and
`double` (8 bytes) otherwise (mercury_float.h lines 16-26). -/
def Config.floatBytes (c : Config) : Nat :=
  if c.useSinglePrecFloat then 4 else 8

/-- MR_BOXED_FLOAT after preprocessing: line 21 does `#undef MR_BOXED_FLOAT`
whenever MR_USE_SINGLE_PREC_FLOAT is defined, so boxing is active only when
configured and the precision is double. -/
def Config.boxedFloat (c : Config) : Bool :=
  c.boxedFloatConfigured && !c.useSinglePrecFloat

/-- MR_FLOAT_WORDS = (sizeof(MR_Float) + sizeof(MR_Word) - 1) / sizeof(MR_Word)
(mercury_float.h lines 29-30). -/
def Config.floatWords (c : Config) : Nat :=
  (c.floatBytes + c.wordBytes - 1) / c.wordBytes

/-- MR_FLT_MIN_PRECISION: 7 for single precision, 15 for double
(mercury_float.h lines 18 and 24). -/
def Config.fltMinPrecision (c : Config) : Nat :=
  if c.useSinglePrecFloat then 7 else 15

/-- MR_FLT_MAX_PRECISION = MR_FLT_MIN_PRECISION + 2 (line 27). -/
def Config.fltMaxPrecision (c : Config) : Nat :=
  c.fltMinPrecision + 2

/-- Allocation-site tag passed to the external allocator; the header
always passes MR_ALLOC_SITE_FLOAT. -/
inductive AllocSite where
  | float
deriving DecidableEq

/-- Heap state: `hp` is the byte address of the bump cursor `MR_hp`;
`mem a` is the float bit pattern stored at byte address `a`; `log`
records each allocation request `(words, site)` made to the external
allocator, in order. -/
structure Heap where
  hp : Nat
  mem : Nat → Nat
  log : List (Nat × AllocSite)

/-- MR_hp_alloc_atomic_msg(n, MR_ALLOC_SITE_FLOAT, NULL), modelled by its
bump-allocator contract: advance `MR_hp` by `n` words and record the
request.  The block just allocated starts at the new cursor minus `n`
words, which is the old cursor. -/
def hpAllocAtomic (c : Config) (n : Nat) (site : AllocSite) (s : Heap) : Heap :=
  { s with hp := s.hp + n * c.wordBytes, log := s.log ++ [(n, site)] }

/-- MR_make_hp_float_aligned (mercury_float.h lines 61 and 70-75): a no-op
`((void)0)` under MR_CONSERVATIVE_GC; otherwise, if the cursor fails the
mask test `(MR_Word)MR_hp & (sizeof(MR_Float) - 1)`, allocate one padding
word, else do nothing. -/
def makeHpFloatAligned (c : Config) (s : Heap) : Heap :=
  if c.conservativeGC then s
  else if Nat.land s.hp (c.floatBytes - 1) ≠ 0 then
    hpAllocAtomic c 1 AllocSite.float s
  else s

/-- Store a float bit pattern at a byte address. -/
def storeFloat (a f : Nat) (s : Heap) : Heap :=
  { s with mem := fun x => if x = a then f else s.mem x }

/-- MR_float_to_word in boxed mode (mercury_float.h lines 54-60 for the
conservative-GC definition, lines 76-82 for the precise-GC definition):
conservative GC allocates MR_FLOAT_WORDS atomic words unconditionally;
precise GC first runs MR_make_hp_float_aligned, then allocates
MR_FLOAT_WORDS atomic words.  Both then execute
`* (MR_Float *) (MR_hp - MR_FLOAT_WORDS) = f` and return
`(MR_Word) (MR_hp - MR_FLOAT_WORDS)`. -/
def floatToWordBoxed (c : Config) (f : Nat) (s : Heap) : Nat × Heap :=
  if c.conservativeGC then
    let s1 := hpAllocAtomic c c.floatWords AllocSite.float s
    let a := s1.hp - c.floatWords * c.wordBytes
    (a, storeFloat a f s1)
  else
    let s0 := makeHpFloatAligned c s
    let s1 := hpAllocAtomic c c.floatWords AllocSite.float s0
    let a := s1.hp - c.floatWords * c.wordBytes
    (a, storeFloat a f s1)

/-- MR_word_to_float in boxed mode (mercury_float.h line 51):
`(* (MR_Float *) (w))`, a dereference of the boxed cell. -/
def wordToFloatBoxed (s : Heap) (w : Nat) : Nat :=
  s.mem w

/-- MR_float_to_word in unboxed mode (mercury_float.h lines 176-177 and
183-184): write the float member of `union MR_Float_Word` and read the
word member.  The word member is `sizeof(MR_Word)` bytes wide, so the
value read is the float's bits truncated to the word width (bytes of the
word beyond the float are taken as zero). -/
def floatToWordUnboxed (c : Config) (f : Nat) : Nat :=
  f % 2 ^ (8 * c.wordBytes)

/-- MR_word_to_float in unboxed mode (mercury_float.h lines 178-179 and
185-186): write the word member of `union MR_Float_Word` and read the
float member, i.e. the low `sizeof(MR_Float)` bytes. -/
def wordToFloatUnboxed (c : Config) (w : Nat) : Nat :=
  w % 2 ^ (8 * c.floatBytes)

/-- C1: for every representable float bit pattern `f` (hence including
every NaN payload, both signed zeros and both infinities),
`MR_word_to_float(MR_float_to_word(f))` returns `f` bit-identically,
both on the unboxed path (union bit-reinterpretation, under the unboxed
mode's assumption sizeof(MR_Float) ≤ sizeof(MR_Word), line 159) and on
the boxed path (heap store then dereference), the latter under either
collector. -/
theorem word_float_roundtrip (c : Config) (f : Nat) (s : Heap)
    (hf : f < 2 ^ (8 * c.floatBytes)) :
    (c.floatBytes ≤ c.wordBytes →
      wordToFloatUnboxed c (floatToWordUnboxed c f) = f) ∧
    wordToFloatBoxed (floatToWordBoxed c f s).2 (floatToWordBoxed c f s).1 = f := by
  constructor
  · intro hle
    have hpow : 2 ^ (8 * c.floatBytes) ≤ 2 ^ (8 * c.wordBytes) :=
      Nat.pow_le_pow_right (by norm_num) (by omega)
    unfold wordToFloatUnboxed floatToWordUnboxed
    rw [Nat.mod_mod_of_dvd _ (Nat.pow_dvd_pow 2 (by omega)),
      Nat.mod_eq_of_lt hf]
  · unfold floatToWordBoxed wordToFloatBoxed storeFloat
    by_cases hgc : c.conservativeGC <;> simp [hgc]

/-- Witness for C1 at a concrete double-precision configuration, the bit
pattern of -0.0, and an empty heap. -/
theorem word_float_roundtrip_witness :
    ((0x8000000000000000 : Nat) < 2 ^ (8 * (Config.mk false true true true 8).floatBytes)) ∧
    wordToFloatUnboxed (Config.mk false true true true 8)
      (floatToWordUnboxed (Config.mk false true true true 8) 0x8000000000000000) =
      0x8000000000000000 := by
  refine ⟨by decide, ?_⟩
  exact (word_float_roundtrip (Config.mk false true true true 8) 0x8000000000000000
    ⟨0, fun _ => 0, []⟩ (by decide)).1 (by decide)

/-- MR_float_word_bits(F, I) (mercury_float.h lines 100-114): write the
float member of `union MR_Float_Dword` and read word `I` of its two-word
member, i.e. bytes `[I * wordBytes, (I+1) * wordBytes)` of the bit
pattern (little-endian byte order; the round-trip results below are
independent of that choice since MR_float_from_dword inverts the same
layout). -/
def floatWordBits (c : Config) (f i : Nat) : Nat :=
  f / 2 ^ (8 * c.wordBytes * i) % 2 ^ (8 * c.wordBytes)

/-- The two halves `(MR_float_word_bits(f,0), MR_float_word_bits(f,1))`:
the spec's `splitToDwords`. -/
def splitToDwords (c : Config) (f : Nat) : Nat × Nat :=
  (floatWordBits c f 0, floatWordBits c f 1)

/-- MR_float_from_dword(w0, w1) (mercury_float.h lines 131-155): write
both words of `union MR_Float_Dword` and read the float member, i.e. the
low `sizeof(MR_Float)` bytes of the two-word buffer. -/
def floatFromDword (c : Config) (w0 w1 : Nat) : Nat :=
  (w0 % 2 ^ (8 * c.wordBytes) + w1 % 2 ^ (8 * c.wordBytes) * 2 ^ (8 * c.wordBytes))
    % 2 ^ (8 * c.floatBytes)

/-- C2: for every double-precision bit pattern `f`,
`MR_float_from_dword` applied to the two words produced by
`splitToDwords` returns `f` bit-for-bit, `MR_float_word_bits(f,0)` and
`MR_float_word_bits(f,1)` are exactly those two halves, and the codec's
results do not depend on the boxing or collector flags of the
configuration (the dword codec is the same function in every mode). -/
theorem dword_roundtrip (c : Config) (f : Nat)
    (hs : c.useSinglePrecFloat = false) (hf : f < 2 ^ 64)
    (hw : 4 ≤ c.wordBytes) :
    floatFromDword c (splitToDwords c f).1 (splitToDwords c f).2 = f ∧
    splitToDwords c f = (floatWordBits c f 0, floatWordBits c f 1) ∧
    (∀ b₁ g₁ n₁ b₂ g₂ n₂ : Bool,
      splitToDwords (Config.mk false b₁ g₁ n₁ c.wordBytes) f =
        splitToDwords (Config.mk false b₂ g₂ n₂ c.wordBytes) f ∧
      floatFromDword (Config.mk false b₁ g₁ n₁ c.wordBytes)
          (splitToDwords c f).1 (splitToDwords c f).2 =
        floatFromDword (Config.mk false b₂ g₂ n₂ c.wordBytes)
          (splitToDwords c f).1 (splitToDwords c f).2) := by
  refine ⟨?_, rfl, fun b₁ g₁ n₁ b₂ g₂ n₂ => ⟨rfl, rfl⟩⟩
  have hfb : c.floatBytes = 8 := by simp [Config.floatBytes, hs]
  unfold floatFromDword splitToDwords floatWordBits
  rw [hfb]
  set B := 2 ^ (8 * c.wordBytes) with hB
  have hBB : 2 ^ 64 ≤ B * B := by
    have h32 : (2 : Nat) ^ 32 ≤ B := Nat.pow_le_pow_right (by norm_num) (by omega)
    calc (2 : Nat) ^ 64 = 2 ^ 32 * 2 ^ 32 := by norm_num
      _ ≤ B * B := Nat.mul_le_mul h32 h32
  have hdivlt : f / B < B := Nat.div_lt_of_lt_mul (lt_of_lt_of_le hf hBB)
  simp only [Nat.mul_zero, Nat.pow_zero, Nat.div_one, Nat.mul_one]
  have h1 : f % B % B = f % B := Nat.mod_mod_of_dvd _ dvd_rfl
  have h2 : f / B % B % B = f / B % B := Nat.mod_mod_of_dvd _ dvd_rfl
  rw [h1, h2, Nat.mod_eq_of_lt hdivlt, Nat.mod_add_div', Nat.mod_eq_of_lt hf]

/-- Witness for C2 at a 32-bit word size and the bit pattern of a
quiet NaN with a nonzero payload. -/
theorem dword_roundtrip_witness :
    ((Config.mk false true false true 4).useSinglePrecFloat = false ∧
      (0x7FF800000000BEEF : Nat) < 2 ^ 64 ∧
      4 ≤ (Config.mk false true false true 4).wordBytes) ∧
    floatFromDword (Config.mk false true false true 4)
      (splitToDwords (Config.mk false true false true 4) 0x7FF800000000BEEF).1
      (splitToDwords (Config.mk false true false true 4) 0x7FF800000000BEEF).2 =
      0x7FF800000000BEEF :=
  ⟨⟨rfl, by norm_num, by decide⟩,
    (dword_roundtrip (Config.mk false true false true 4) 0x7FF800000000BEEF
      rfl (by norm_num) (by decide)).1⟩

/-- The bitwise mask test of the header equals a remainder test when the
mask is one less than a power of two. -/
theorem land_mask_eq_mod (a k : Nat) : Nat.land a (2 ^ k - 1) = a % 2 ^ k :=
  Nat.and_pow_two_sub_one_eq_mod a k

/-- Core alignment fact behind MR_make_hp_float_aligned in precise-GC
mode: if the word size is a power of two, the float size divides twice
the word size, and the cursor is word-aligned, then after the
conditional one-word pad the cursor is float-aligned, and the pad
consumed at most one word. -/
theorem aligned_hp_after (c : Config) (s : Heap) (j : Nat)
    (hgc : c.conservativeGC = false) (hw : c.wordBytes = 2 ^ j)
    (hle : c.floatBytes ≤ 2 * c.wordBytes) (hdvd : c.wordBytes ∣ s.hp) :
    c.floatBytes ∣ (makeHpFloatAligned c s).hp ∧
      (makeHpFloatAligned c s).hp ≤ s.hp + c.wordBytes := by
  obtain ⟨i, hfb⟩ : ∃ i, c.floatBytes = 2 ^ i := by
    unfold Config.floatBytes
    by_cases h : c.useSinglePrecFloat
    · exact ⟨2, by rw [if_pos h]; norm_num⟩
    · exact ⟨3, by rw [if_neg h]; norm_num⟩
  have hij : i ≤ j + 1 := by
    have hpow : (2 : Nat) ^ i ≤ 2 ^ (j + 1) := by
      rw [← hfb, pow_succ, ← hw]; omega
    exact (Nat.pow_le_pow_iff_right (by norm_num)).mp hpow
  unfold makeHpFloatAligned hpAllocAtomic
  rw [hgc]
  simp only [Bool.false_eq_true, if_false, hfb, land_mask_eq_mod, one_mul]
  by_cases hmod : s.hp % 2 ^ i = 0
  · simp only [hmod, ne_eq, not_true_eq_false, if_false]
    exact ⟨Nat.dvd_of_mod_eq_zero hmod, Nat.le_add_right _ _⟩
  · simp only [ne_eq, hmod, not_false_eq_true, if_true]
    refine ⟨?_, le_refl _⟩
    rcases Nat.lt_or_ge i (j + 1) with hlt | hge
    · have hdvd2 : (2 : Nat) ^ i ∣ s.hp :=
        (Nat.pow_dvd_pow 2 (by omega : i ≤ j)).trans (hw ▸ hdvd)
      exact absurd (Nat.mod_eq_zero_of_dvd hdvd2) hmod
    · have hi : i = j + 1 := le_antisymm hij hge
      obtain ⟨m, hm⟩ := hdvd
      rw [hm, hw, hi] at hmod ⊢
      have hodd : m % 2 = 1 := by
        by_contra hme
        have hme0 : m % 2 = 0 := by omega
        apply hmod
        rw [pow_succ, Nat.mul_mod_mul_left, hme0, Nat.mul_zero]
      obtain ⟨t, ht⟩ : 2 ∣ m + 1 := by omega
      refine ⟨t, ?_⟩
      rw [pow_succ]
      calc 2 ^ j * m + 2 ^ j = 2 ^ j * (m + 1) := by ring
        _ = 2 ^ j * (2 * t) := by rw [← ht]
        _ = 2 ^ j * 2 * t := by ring

/-- C10: under the unstated precondition of the XXX comment at
mercury_float.h lines 67-68 — sizeof(MR_Float) a power of two (automatic
here, it is 4 or 8) and at most 2 * sizeof(MR_Word) — together with a
power-of-two word size and a word-aligned cursor, MR_make_hp_float_aligned
leaves the cursor float-aligned after consuming at most one padding word;
and without that precondition the guarantee fails: on a configuration with
sizeof(MR_Word) = 2 (so sizeof(MR_Float) = 8 > 2 * sizeof(MR_Word)) and a
word-aligned cursor at byte 2, the cursor after the pad is 4, which is not
8-byte aligned. -/
theorem make_hp_float_aligned_correct :
    (∀ (c : Config) (s : Heap) (j : Nat),
      c.conservativeGC = false → c.wordBytes = 2 ^ j →
      c.floatBytes ≤ 2 * c.wordBytes → c.wordBytes ∣ s.hp →
      c.floatBytes ∣ (makeHpFloatAligned c s).hp ∧
        (makeHpFloatAligned c s).hp ≤ s.hp + c.wordBytes) ∧
    ¬ (Config.floatBytes (Config.mk false true false true 2) ∣
        (makeHpFloatAligned (Config.mk false true false true 2)
          ⟨2, fun _ => 0, []⟩).hp) := by
  constructor
  · intro c s j hgc hw hle hdvd
    exact aligned_hp_after c s j hgc hw hle hdvd
  · decide

/-- Witness for C10's universally quantified part: 32-bit words
(wordBytes = 4 = 2^2), double-precision floats, precise collection, and
a word-aligned but not float-aligned cursor at byte 4; the aligned cursor
is 8, which is float-aligned and at most one word beyond 4. -/
theorem make_hp_float_aligned_correct_witness :
    ((Config.mk false true false true 4).conservativeGC = false ∧
      (Config.mk false true false true 4).wordBytes = 2 ^ 2 ∧
      (Config.mk false true false true 4).floatBytes ≤
        2 * (Config.mk false true false true 4).wordBytes ∧
      (Config.mk false true false true 4).wordBytes ∣ (4 : Nat)) ∧
    ((Config.mk false true false true 4).floatBytes ∣
      (makeHpFloatAligned (Config.mk false true false true 4)
        ⟨4, fun _ => 0, []⟩).hp) :=
  ⟨⟨rfl, rfl, by decide, by decide⟩,
    (make_hp_float_aligned_correct.1 (Config.mk false true false true 4)
      ⟨4, fun _ => 0, []⟩ 2 rfl rfl (by decide) (by decide)).1⟩

/-- C3: in boxed mode with precise collection, the address returned by
MR_float_to_word is a multiple of sizeof(MR_Float).  The external
allocator is modelled as a bump allocator advancing the cursor by the
requested number of words (hpAllocAtomic); the machine-model hypotheses
are a power-of-two word size of at least 4 bytes and a word-aligned
cursor. -/
theorem boxed_precise_alignment (c : Config) (f : Nat) (s : Heap) (j : Nat)
    (hb : c.boxedFloat = true) (hgc : c.conservativeGC = false)
    (hw : c.wordBytes = 2 ^ j) (hw4 : 4 ≤ c.wordBytes)
    (hdvd : c.wordBytes ∣ s.hp) :
    c.floatBytes ∣ (floatToWordBoxed c f s).1 := by
  have hs : c.useSinglePrecFloat = false := by
    unfold Config.boxedFloat at hb
    cases h : c.useSinglePrecFloat
    · rfl
    · rw [h] at hb; simp at hb
  have hfb : c.floatBytes = 8 := by simp [Config.floatBytes, hs]
  have hle : c.floatBytes ≤ 2 * c.wordBytes := by omega
  have haligned := aligned_hp_after c s j hgc hw hle hdvd
  unfold floatToWordBoxed
  rw [hgc]
  simp only [Bool.false_eq_true, if_false, hpAllocAtomic, storeFloat,
    Nat.add_sub_cancel]
  exact haligned.1

/-- Witness for C3 at 32-bit words, boxed double, precise collection,
cursor at byte 4: the returned address 8 is a multiple of 8. -/
theorem boxed_precise_alignment_witness :
    ((Config.mk false true false true 4).boxedFloat = true ∧
      (Config.mk false true false true 4).conservativeGC = false ∧
      (Config.mk false true false true 4).wordBytes = 2 ^ 2 ∧
      4 ≤ (Config.mk false true false true 4).wordBytes ∧
      (Config.mk false true false true 4).wordBytes ∣ (4 : Nat)) ∧
    (Config.mk false true false true 4).floatBytes ∣
      (floatToWordBoxed (Config.mk false true false true 4) 0x3FF0000000000000
        ⟨4, fun _ => 0, []⟩).1 :=
  ⟨⟨rfl, rfl, rfl, by decide, by decide⟩,
    boxed_precise_alignment (Config.mk false true false true 4)
      0x3FF0000000000000 ⟨4, fun _ => 0, []⟩ 2 rfl rfl rfl (by decide) (by decide)⟩

/-- C4: the two-path algorithm of MR_float_to_word in boxed mode.  Under
conservative GC it requests MR_FLOAT_WORDS atomic words tagged with the
float allocation site unconditionally; under precise GC it first tests
the cursor with the mask `sizeof(MR_Float) - 1`, consumes one padding
word only when the test is nonzero, then allocates MR_FLOAT_WORDS atomic
words.  Both paths write `f` into the returned storage and return that
storage's starting address, leaving every other stored float intact. -/
theorem float_to_word_algorithm (c : Config) (f : Nat) (s : Heap) :
    (c.conservativeGC = true →
      (floatToWordBoxed c f s).1 = s.hp ∧
      (floatToWordBoxed c f s).2.hp = s.hp + c.floatWords * c.wordBytes ∧
      (floatToWordBoxed c f s).2.log = s.log ++ [(c.floatWords, AllocSite.float)] ∧
      (floatToWordBoxed c f s).2.mem (floatToWordBoxed c f s).1 = f ∧
      (∀ x, x ≠ (floatToWordBoxed c f s).1 →
        (floatToWordBoxed c f s).2.mem x = s.mem x)) ∧
    (c.conservativeGC = false →
      (Nat.land s.hp (c.floatBytes - 1) = 0 →
        (floatToWordBoxed c f s).1 = s.hp ∧
        (floatToWordBoxed c f s).2.hp = s.hp + c.floatWords * c.wordBytes ∧
        (floatToWordBoxed c f s).2.log =
          s.log ++ [(c.floatWords, AllocSite.float)]) ∧
      (Nat.land s.hp (c.floatBytes - 1) ≠ 0 →
        (floatToWordBoxed c f s).1 = s.hp + c.wordBytes ∧
        (floatToWordBoxed c f s).2.hp =
          s.hp + c.wordBytes + c.floatWords * c.wordBytes ∧
        (floatToWordBoxed c f s).2.log =
          s.log ++ [(1, AllocSite.float), (c.floatWords, AllocSite.float)]) ∧
      (floatToWordBoxed c f s).2.mem (floatToWordBoxed c f s).1 = f ∧
      (∀ x, x ≠ (floatToWordBoxed c f s).1 →
        (floatToWordBoxed c f s).2.mem x = s.mem x)) := by
  constructor
  · intro hgc
    refine ⟨?_, ?_, ?_, ?_, fun x hx => ?_⟩
    · simp [floatToWordBoxed, hpAllocAtomic, storeFloat, hgc]
    · simp [floatToWordBoxed, hpAllocAtomic, storeFloat, hgc]
    · simp [floatToWordBoxed, hpAllocAtomic, storeFloat, hgc]
    · simp [floatToWordBoxed, hpAllocAtomic, storeFloat, hgc]
    · simp only [floatToWordBoxed, hpAllocAtomic, storeFloat, hgc, if_true,
        Nat.add_sub_cancel] at hx ⊢
      simp [hx]
  · intro hgc
    by_cases htest : Nat.land s.hp (c.floatBytes - 1) = 0
    · refine ⟨fun _ => ?_, fun h => absurd htest h, ?_, fun x hx => ?_⟩
      · simp [floatToWordBoxed, makeHpFloatAligned, hpAllocAtomic, storeFloat,
          hgc, htest]
      · simp [floatToWordBoxed, makeHpFloatAligned, hpAllocAtomic, storeFloat,
          hgc, htest]
      · simp only [floatToWordBoxed, makeHpFloatAligned, hpAllocAtomic,
          storeFloat, hgc, htest, ne_eq, not_true_eq_false, if_false,
          Bool.false_eq_true, Nat.add_sub_cancel] at hx ⊢
        simp [hx]
    · refine ⟨fun h => absurd h htest, fun _ => ?_, ?_, fun x hx => ?_⟩
      · simp [floatToWordBoxed, makeHpFloatAligned, hpAllocAtomic, storeFloat,
          hgc, htest]
      · simp [floatToWordBoxed, makeHpFloatAligned, hpAllocAtomic, storeFloat,
          hgc, htest]
      · simp only [floatToWordBoxed, makeHpFloatAligned, hpAllocAtomic,
          storeFloat, hgc, htest, ne_eq, not_false_eq_true, if_true,
          Bool.false_eq_true, if_false, Nat.add_sub_cancel, one_mul] at hx ⊢
        simp [hx]

/-- Witness for C4's conservative branch: 64-bit words, conservative GC,
cursor at byte 16: the cell is allocated at 16 in one unconditional
one-word request, holds the stored bits, and the cursor advances to 24. -/
theorem float_to_word_algorithm_witness :
    ((Config.mk false true true true 8).conservativeGC = true) ∧
    ((floatToWordBoxed (Config.mk false true true true 8) 0x400921FB54442D18
        ⟨16, fun _ => 0, []⟩).1 = 16 ∧
      (floatToWordBoxed (Config.mk false true true true 8) 0x400921FB54442D18
        ⟨16, fun _ => 0, []⟩).2.hp =
        16 + (Config.mk false true true true 8).floatWords *
          (Config.mk false true true true 8).wordBytes ∧
      (floatToWordBoxed (Config.mk false true true true 8) 0x400921FB54442D18
        ⟨16, fun _ => 0, []⟩).2.log =
        [] ++ [((Config.mk false true true true 8).floatWords, AllocSite.float)]) :=
  ⟨rfl,
    (let h := (float_to_word_algorithm (Config.mk false true true true 8)
      0x400921FB54442D18 ⟨16, fun _ => 0, []⟩).1 rfl
     ⟨h.1, h.2.1, h.2.2.1⟩)⟩

/-- Counterexample to C5: under conservative collection (32-bit words,
boxed double) with the cursor at byte 4 — not 8-byte aligned — the
boxing path performs no misalignment test and inserts no padding: it
issues the single unconditional 2-word request, leaves
MR_make_hp_float_aligned a no-op, and returns address 4, which is not a
multiple of sizeof(MR_Float) = 8.  So the conservative-GC path does not
force alignment by padding; only the precise-GC path contains that
logic. -/
theorem conservative_no_padding_cex :
    (floatToWordBoxed (Config.mk false true true true 4) 0x40091EB851EB851F
        ⟨4, fun _ => 0, []⟩).1 = 4 ∧
    ¬ ((8 : Nat) ∣ (floatToWordBoxed (Config.mk false true true true 4)
        0x40091EB851EB851F ⟨4, fun _ => 0, []⟩).1) ∧
    (floatToWordBoxed (Config.mk false true true true 4) 0x40091EB851EB851F
        ⟨4, fun _ => 0, []⟩).2.log = [(2, AllocSite.float)] ∧
    makeHpFloatAligned (Config.mk false true true true 4) ⟨4, fun _ => 0, []⟩ =
      ⟨4, fun _ => 0, []⟩ :=
  ⟨rfl, by decide, rfl, rfl⟩

/-- C5 amended: the misalignment test and conditional one-word padding
live only on the precise-collection path.  Under conservative collection
MR_make_hp_float_aligned is a no-op and the boxing path issues one
unconditional MR_FLOAT_WORDS-word request regardless of cursor
alignment; under precise collection the path pads with one word exactly
when the masked cursor test is nonzero. -/
theorem padding_only_when_precise (c : Config) (f : Nat) (s : Heap) :
    (c.conservativeGC = true →
      makeHpFloatAligned c s = s ∧
      (floatToWordBoxed c f s).2.log =
        s.log ++ [(c.floatWords, AllocSite.float)]) ∧
    (c.conservativeGC = false →
      (floatToWordBoxed c f s).2.log =
        if Nat.land s.hp (c.floatBytes - 1) ≠ 0 then
          s.log ++ [(1, AllocSite.float), (c.floatWords, AllocSite.float)]
        else s.log ++ [(c.floatWords, AllocSite.float)]) := by
  constructor
  · intro hgc
    constructor
    · simp [makeHpFloatAligned, hgc]
    · simp [floatToWordBoxed, hpAllocAtomic, storeFloat, hgc]
  · intro hgc
    by_cases htest : Nat.land s.hp (c.floatBytes - 1) = 0 <;>
      simp [floatToWordBoxed, makeHpFloatAligned, hpAllocAtomic, storeFloat,
        hgc, htest]

/-- Witness for the amended C5 at a conservative-GC configuration with a
misaligned cursor: no padding request appears in the log. -/
theorem padding_only_when_precise_witness :
    ((Config.mk false true true true 4).conservativeGC = true) ∧
    makeHpFloatAligned (Config.mk false true true true 4) ⟨12, fun _ => 0, []⟩ =
      ⟨12, fun _ => 0, []⟩ ∧
    (floatToWordBoxed (Config.mk false true true true 4) 0
        ⟨12, fun _ => 0, []⟩).2.log =
      [] ++ [((Config.mk false true true true 4).floatWords, AllocSite.float)] :=
  ⟨rfl,
    (padding_only_when_precise (Config.mk false true true true 4) 0
      ⟨12, fun _ => 0, []⟩).1 rfl |>.1,
    (padding_only_when_precise (Config.mk false true true true 4) 0
      ⟨12, fun _ => 0, []⟩).1 rfl |>.2⟩

/-- MR_float_const in boxed mode (mercury_float.h lines 85-89): under
MR_GNUC it evaluates `({ static const MR_Float d = f; (MR_Word) &d; })`,
the address of the literal's statically initialised cell (modelled by
the parameter `staticAddr`), touching no heap state; under any other
compiler it falls back to MR_float_to_word, commented "inefficient" in
the source. -/
def floatConstBoxed (c : Config) (staticAddr f : Nat) (s : Heap) : Nat × Heap :=
  if c.gnuc then (staticAddr, s) else floatToWordBoxed c f s

/-- Counterexample to C8: in boxed mode under a non-GNUC compiler
(64-bit words, conservative GC), evaluating MR_float_const twice for the
same literal performs a fresh one-word heap allocation on each
evaluation and returns two different addresses (0 then 8), because the
fallback expands to MR_float_to_word. -/
theorem float_const_realloc_cex :
    (floatConstBoxed (Config.mk false true true false 8) 100 0x3FF0000000000000
        ⟨0, fun _ => 0, []⟩).1 = 0 ∧
    (floatConstBoxed (Config.mk false true true false 8) 100 0x3FF0000000000000
        (floatConstBoxed (Config.mk false true true false 8) 100
          0x3FF0000000000000 ⟨0, fun _ => 0, []⟩).2).1 = 8 ∧
    (floatConstBoxed (Config.mk false true true false 8) 100 0x3FF0000000000000
        (floatConstBoxed (Config.mk false true true false 8) 100
          0x3FF0000000000000 ⟨0, fun _ => 0, []⟩).2).2.log =
      [(1, AllocSite.float), (1, AllocSite.float)] :=
  ⟨rfl, rfl, rfl⟩

/-- C8 amended: the static-cell behaviour of MR_float_const holds only
under MR_GNUC, where every evaluation returns the address of the
literal's single statically initialised cell and performs no heap
allocation; under other compilers MR_float_const expands to
MR_float_to_word and allocates anew on every evaluation. -/
theorem float_const_static (c : Config) (a f : Nat) (s : Heap) :
    (c.gnuc = true →
      floatConstBoxed c a f s = (a, s) ∧
      (floatConstBoxed c a f (floatConstBoxed c a f s).2).1 = a ∧
      (floatConstBoxed c a f (floatConstBoxed c a f s).2).2 = s) ∧
    (c.gnuc = false →
      floatConstBoxed c a f s = floatToWordBoxed c f s) := by
  constructor
  · intro hg
    simp [floatConstBoxed, hg]
  · intro hg
    simp [floatConstBoxed, hg]

/-- Witness for the amended C8 under MR_GNUC: both evaluations return
the static cell's address 100 and the heap is untouched. -/
theorem float_const_static_witness :
    ((Config.mk false true true true 8).gnuc = true) ∧
    floatConstBoxed (Config.mk false true true true 8) 100 0x3FF0000000000000
      ⟨0, fun _ => 0, []⟩ = (100, ⟨0, fun _ => 0, []⟩) ∧
    (floatConstBoxed (Config.mk false true true true 8) 100 0x3FF0000000000000
      (floatConstBoxed (Config.mk false true true true 8) 100
        0x3FF0000000000000 ⟨0, fun _ => 0, []⟩).2).1 = 100 :=
  ⟨rfl,
    ((float_const_static (Config.mk false true true true 8) 100
      0x3FF0000000000000 ⟨0, fun _ => 0, []⟩).1 rfl).1,
    ((float_const_static (Config.mk false true true true 8) 100
      0x3FF0000000000000 ⟨0, fun _ => 0, []⟩).1 rfl).2.1⟩

/-- C9: selecting single-precision floats undefines MR_BOXED_FLOAT
(mercury_float.h line 21) regardless of the configured boxing flag, so
whenever boxing is active the float type is double (8 bytes). -/
theorem boxed_implies_double (c : Config) :
    (c.boxedFloat = true →
      c.useSinglePrecFloat = false ∧ c.floatBytes = 8) ∧
    (c.useSinglePrecFloat = true → c.boxedFloat = false) := by
  constructor
  · intro hb
    have hs : c.useSinglePrecFloat = false := by
      unfold Config.boxedFloat at hb
      cases h : c.useSinglePrecFloat
      · rfl
      · rw [h] at hb; simp at hb
    exact ⟨hs, by simp [Config.floatBytes, hs]⟩
  · intro hs
    simp [Config.boxedFloat, hs]

/-- Witness for C9: a configuration that requests boxing without single
precision is boxed with 8-byte floats, and one that requests boxing with
single precision is not boxed. -/
theorem boxed_implies_double_witness :
    ((Config.mk false true false true 4).boxedFloat = true ∧
      (Config.mk false true false true 4).floatBytes = 8) ∧
    ((Config.mk true true false true 4).useSinglePrecFloat = true ∧
      (Config.mk true true false true 4).boxedFloat = false) :=
  ⟨⟨rfl, ((boxed_implies_double (Config.mk false true false true 4)).1 rfl).2⟩,
    ⟨rfl, (boxed_implies_double (Config.mk true true false true 4)).2 rfl⟩⟩

/-- Exponent-field width of the active float format: 8 for IEEE-754
single precision, 11 for double. -/
def floatExpBits (c : Config) : Nat :=
  if c.useSinglePrecFloat then 8 else 11

/-- Mantissa-field width of the active float format: 23 for single
precision, 52 for double. -/
def floatMantBits (c : Config) : Nat :=
  if c.useSinglePrecFloat then 23 else 52

/-- The exponent field of a float bit pattern. -/
def expField (c : Config) (f : Nat) : Nat :=
  f / 2 ^ floatMantBits c % 2 ^ floatExpBits c

/-- The mantissa field of a float bit pattern. -/
def mantField (c : Config) (f : Nat) : Nat :=
  f % 2 ^ floatMantBits c

/-- Modelled from the spec: MR_is_nan delegates to the C99 `isnan` /
`isnanf` primitive or to MR_is_nan_func in runtime/mercury_float.c,
neither of which is among the sources; per the spec's portable
bit-pattern definition, NaN is exponent-all-ones with nonzero
mantissa. -/
def isNan (c : Config) (f : Nat) : Bool :=
  decide (expField c f = 2 ^ floatExpBits c - 1) && decide (mantField c f ≠ 0)

/-- Modelled from the spec: MR_is_infinite delegates to `isinf` /
`isinff` or MR_is_infinite_func, not among the sources; per the spec's
portable bit-pattern definition, infinity is exponent-all-ones with zero
mantissa. -/
def isInfinite (c : Config) (f : Nat) : Bool :=
  decide (expField c f = 2 ^ floatExpBits c - 1) && decide (mantField c f = 0)

/-- Modelled from the spec: the C99 `isfinite` primitive used by
MR_is_finite (mercury_float.h line 245); a finite value is one whose
exponent field is not all ones. -/
def isFinite (c : Config) (f : Nat) : Bool :=
  decide (expField c f ≠ 2 ^ floatExpBits c - 1)

/-- The portable fallback for MR_is_finite (mercury_float.h line 247):
`(!MR_is_infinite((f)) && !MR_is_nan((f)))`. -/
def isFiniteFallback (c : Config) (f : Nat) : Bool :=
  !isInfinite c f && !isNan c f

/-- C6: the classifiers agree with IEEE 754 on the representative
double-precision bit patterns — +0.0 and -0.0 are finite and neither NaN
nor infinite; +infinity (the value of 1.0/0.0) is infinite, not finite,
not NaN; a NaN pattern (the result of 0.0/0.0) is NaN, not finite, not
infinite; the largest finite double is finite — and, for every
configuration and bit pattern, the fallback `isFinite` of line 247
equals `not (isInfinite or isNaN)` and agrees with the `isfinite`
primitive. -/
theorem classifier_correct :
    (isNan (Config.mk false true false true 8) 0 = false ∧
      isInfinite (Config.mk false true false true 8) 0 = false ∧
      isFiniteFallback (Config.mk false true false true 8) 0 = true) ∧
    (isNan (Config.mk false true false true 8) 0x8000000000000000 = false ∧
      isInfinite (Config.mk false true false true 8) 0x8000000000000000 = false ∧
      isFiniteFallback (Config.mk false true false true 8) 0x8000000000000000 = true) ∧
    (isNan (Config.mk false true false true 8) 0x7FF0000000000000 = false ∧
      isInfinite (Config.mk false true false true 8) 0x7FF0000000000000 = true ∧
      isFiniteFallback (Config.mk false true false true 8) 0x7FF0000000000000 = false) ∧
    (isNan (Config.mk false true false true 8) 0x7FF8000000000000 = true ∧
      isInfinite (Config.mk false true false true 8) 0x7FF8000000000000 = false ∧
      isFiniteFallback (Config.mk false true false true 8) 0x7FF8000000000000 = false) ∧
    isFiniteFallback (Config.mk false true false true 8) 0x7FEFFFFFFFFFFFFF = true ∧
    (∀ (c : Config) (f : Nat),
      isFiniteFallback c f = !(isInfinite c f || isNan c f)) ∧
    (∀ (c : Config) (f : Nat), isFinite c f = isFiniteFallback c f) := by
  refine ⟨by decide, by decide, by decide, by decide, by decide,
    fun c f => ?_, fun c f => ?_⟩
  · cases h1 : isInfinite c f <;> cases h2 : isNan c f <;>
      simp [isFiniteFallback, h1, h2]
  · by_cases he : expField c f = 2 ^ floatExpBits c - 1 <;>
      by_cases hm : mantField c f = 0 <;>
      simp [isFinite, isFiniteFallback, isInfinite, isNan, he, hm]

/-- Decimal scientific-notation output shape of MR_sprintf_float for the
`%#.*g` format, per the header comment at mercury_float.h lines 192-199:
an optional sign, one leading digit, a decimal point, the remaining
significant digits, an exponent marker, an optional exponent sign, and
the exponent digits. -/
structure SciNotation where
  neg : Bool
  lead : Nat
  frac : List Nat
  expNeg : Bool
  expDigits : List Nat

/-- Character of a decimal digit. -/
def digitChar (d : Nat) : Char :=
  Char.ofNat (48 + d)

/-- Modelled from the spec: MR_sprintf_float is implemented in
runtime/mercury_float.c, which is not among the sources; following the
spec and the header comment, it renders a value in `%#.*g` scientific
notation as sign, leading digit, point, fraction digits, `E`, exponent
sign and exponent digits (`-n.nnnnnnE-mmmm`). -/
def renderFloat (r : SciNotation) : List Char :=
  (if r.neg then ['-'] else []) ++ [digitChar r.lead] ++ ['.'] ++
    r.frac.map digitChar ++ ['E'] ++ (if r.expNeg then ['-'] else []) ++
    r.expDigits.map digitChar

/-- MR_SPRINTF_FLOAT_BUF_SIZE (mercury_float.h line 200). -/
def sprintfFloatBufSize : Nat := 80

/-- C7: with at most PRECISION = 20 significant digits after the leading
one and at most MAX_EXPONENT_DIGITS = 5 exponent digits (the bounds
stated in the header comment, lines 195-198), the rendered string plus
its terminating NUL always fits in the fixed 80-byte buffer; and every
configuration's MR_FLT_MAX_PRECISION is within that PRECISION bound. -/
theorem sprintf_float_fits (r : SciNotation)
    (hd : r.frac.length ≤ 20) (he : r.expDigits.length ≤ 5) :
    (renderFloat r).length + 1 ≤ sprintfFloatBufSize ∧
    (∀ c : Config, c.fltMaxPrecision ≤ 20) := by
  constructor
  · unfold renderFloat sprintfFloatBufSize
    cases hn : r.neg <;> cases hx : r.expNeg <;>
      simp [List.length_append, List.length_map] <;> omega
  · intro c
    unfold Config.fltMaxPrecision Config.fltMinPrecision
    by_cases h : c.useSinglePrecFloat <;> simp [h]

/-- Witness for C7 at the 17-digit rendering of a double near pi times
ten to the minus three. -/
theorem sprintf_float_fits_witness :
    ((SciNotation.mk true 3 [1, 4, 1, 5, 9, 2, 6, 5, 3, 5, 8, 9, 7, 9, 3, 2, 4]
        true [3]).frac.length ≤ 20 ∧
      (SciNotation.mk true 3 [1, 4, 1, 5, 9, 2, 6, 5, 3, 5, 8, 9, 7, 9, 3, 2, 4]
        true [3]).expDigits.length ≤ 5) ∧
    (renderFloat (SciNotation.mk true 3
        [1, 4, 1, 5, 9, 2, 6, 5, 3, 5, 8, 9, 7, 9, 3, 2, 4]
        true [3])).length + 1 ≤ sprintfFloatBufSize :=
  ⟨⟨by decide, by decide⟩,
    (sprintf_float_fits (SciNotation.mk true 3
      [1, 4, 1, 5, 9, 2, 6, 5, 3, 5, 8, 9, 7, 9, 3, 2, 4] true [3])
      (by decide) (by decide)).1⟩

end MercuryFloat
